import Mathlib

/-!
Shallow embedding of the streaming chat core of the rag-practice frontend:
the SSE frame decoder and dispatcher of
`lib/services/chat.ts` (`chatService.sendMessageStream`), the per-turn
message-list updates of the chat session page (`handleSendMessage`,
`updateLastMessage`, `handleStop`), and the session-list store of
`lib/store.ts` (`fetchSessions`, `addSession`).

Text is modelled as `List Char`; the JavaScript runtime pieces the code
leans on (`String.prototype.split`, `String.prototype.trim`, the anchored
regex match, `JSON.parse` on string literals, `x || y` on numbers) are
embedded as executable Lean functions with the semantics documented at
each definition.
-/

namespace RagPractice

/-! ## FrameDecoder: buffer splitting on the blank-line delimiter -/

/-- Model of `buffer.split("\n\n")` from `sendMessageStream`
(JavaScript `String.prototype.split` with the fixed two-character
separator: leftmost-first, non-overlapping occurrences; always returns a
non-empty list of pieces). -/
def splitNN : List Char → List (List Char)
  | [] => [[]]
  | [a] => [[a]]
  | a :: b :: rest =>
    if a = '\n' ∧ b = '\n' then [] :: splitNN rest
    else (a :: (splitNN (b :: rest)).headI) :: (splitNN (b :: rest)).tail

theorem splitNN_ne_nil (s : List Char) : splitNN s ≠ [] := by
  induction s using splitNN.induct with
  | case1 => simp [splitNN]
  | case2 a => simp [splitNN]
  | case3 a b rest hab ih => simp [splitNN, hab]
  | case4 a b rest hab ih => simp [splitNN, hab]

/-- If splitting produced a single piece, that piece is the whole input
(no delimiter occurred). -/
theorem splitNN_singleton (s h : List Char) (hs : splitNN s = [h]) : h = s := by
  induction s using splitNN.induct generalizing h with
  | case1 => simpa [splitNN] using hs.symm
  | case2 a => simpa [splitNN] using hs.symm
  | case3 a b rest hab ih =>
    rw [splitNN, if_pos hab] at hs
    exact absurd (List.cons_eq_cons.mp hs).2 (splitNN_ne_nil rest)
  | case4 a b rest hab ih =>
    rw [splitNN, if_neg hab] at hs
    rcases List.cons_eq_cons.mp hs with ⟨hh, ht⟩
    rcases hr : splitNN (b :: rest) with _ | ⟨r0, rt⟩
    · exact absurd hr (splitNN_ne_nil _)
    · rw [hr] at hh ht
      simp only [List.headI, List.tail] at hh ht
      subst ht
      have := ih r0 hr
      simp [← hh, this]

/-- The last piece kept as the new buffer. -/
def lastPiece (pieces : List (List Char)) : List Char :=
  pieces.getLast?.getD []

/-- Streaming property of leftmost splitting: splitting `b ++ c` is the
same as splitting `b`, keeping its last piece as a buffer, and splitting
the buffer followed by `c`. This is the heart of chunk-boundary
insensitivity of the decoder loop. -/
theorem splitNN_append (b c : List Char) :
    splitNN (b ++ c) =
      (splitNN b).dropLast ++ splitNN (lastPiece (splitNN b) ++ c) := by
  induction b using splitNN.induct with
  | case1 => simp [splitNN, lastPiece]
  | case2 a =>
    simp [splitNN, lastPiece]
  | case3 a b rest hab ih =>
    obtain ⟨ha, hb⟩ := hab
    subst ha; subst hb
    have hL : splitNN (('\n' :: '\n' :: rest) ++ c) = [] :: splitNN (rest ++ c) := by
      rw [List.cons_append, List.cons_append, splitNN]
      simp
    have hR : splitNN ('\n' :: '\n' :: rest) = [] :: splitNN rest := by
      rw [splitNN]; simp
    rw [hL, hR, ih]
    rcases hr : splitNN rest with _ | ⟨r0, rt⟩
    · exact absurd hr (splitNN_ne_nil _)
    · simp [lastPiece, List.dropLast_cons_of_ne_nil, hr]
  | case4 a b rest hab ih =>
    have hR : splitNN (a :: b :: rest) =
        (a :: (splitNN (b :: rest)).headI) :: (splitNN (b :: rest)).tail := by
      rw [splitNN, if_neg hab]
    have hL : splitNN ((a :: b :: rest) ++ c) =
        (a :: (splitNN (b :: rest ++ c)).headI) :: (splitNN (b :: rest ++ c)).tail := by
      rw [List.cons_append, List.cons_append, splitNN, if_neg hab]
    rcases hr : splitNN (b :: rest) with _ | ⟨r0, rt⟩
    · exact absurd hr (splitNN_ne_nil _)
    rcases rt with _ | ⟨r1, rt'⟩
    · -- no delimiter inside `b :: rest`: the single piece is the string itself
      have hr0 : r0 = b :: rest := splitNN_singleton _ _ hr
      have hlast : lastPiece (splitNN (a :: b :: rest)) = a :: b :: rest := by
        rw [hR, hr, hr0]; simp [lastPiece]
      have hdrop : (splitNN (a :: b :: rest)).dropLast = [] := by
        rw [hR, hr]; simp
      rw [hlast, hdrop, List.nil_append]
    · -- at least one delimiter inside `b :: rest`
      have hic : splitNN (b :: rest ++ c) =
          (r0 :: r1 :: rt').dropLast ++ splitNN (lastPiece (r0 :: r1 :: rt') ++ c) := by
        rw [← hr, ← ih]
      rw [hL, hR, hr]
      have hlp : lastPiece (r0 :: r1 :: rt') = lastPiece (r1 :: rt') := by
        simp [lastPiece]
      have hdrop : (r0 :: r1 :: rt').dropLast = r0 :: (r1 :: rt').dropLast := by
        simp
      rw [hlp, hdrop] at hic
      have hne : splitNN (lastPiece (r1 :: rt') ++ c) ≠ [] := splitNN_ne_nil _
      rcases hs : splitNN (lastPiece (r1 :: rt') ++ c) with _ | ⟨s0, st⟩
      · exact absurd hs hne
      rw [hs] at hic
      rw [hic]
      simp only [List.cons_append, List.headI, List.tail]
      have hlp2 : lastPiece ((a :: r0) :: r1 :: rt') = lastPiece (r1 :: rt') := by
        simp [lastPiece]
      rw [hlp2, hs]
      simp

/-! ## The decoder loop over chunks -/

/-- One iteration of the read loop of `sendMessageStream`: append the
chunk to the buffer, split on the blank-line delimiter, emit every piece
except the last, keep the last piece as the new buffer. -/
def feedChunk (buf chunk : List Char) : List (List Char) × List Char :=
  let pieces := splitNN (buf ++ chunk)
  (pieces.dropLast, lastPiece pieces)

/-- The full read loop: candidate frames emitted over a sequence of
chunks, starting from buffer `buf`; the residual buffer at end of stream
is discarded, as in the source (the loop simply breaks on `done`). -/
def runDecoder (buf : List Char) : List (List Char) → List (List Char)
  | [] => []
  | c :: cs => (feedChunk buf c).1 ++ runDecoder (feedChunk buf c).2 cs

theorem runDecoder_eq_dropLast (buf c : List Char) (cs : List (List Char)) :
    runDecoder buf (c :: cs) = (splitNN (buf ++ c ++ (cs.flatten))).dropLast := by
  induction cs generalizing buf c with
  | nil => simp [runDecoder, feedChunk]
  | cons c' cs ih =>
    rw [runDecoder]
    show (feedChunk buf c).1 ++ runDecoder (feedChunk buf c).2 (c' :: cs) = _
    rw [ih]
    simp only [feedChunk]
    have := splitNN_append (buf ++ c) (c' ++ cs.flatten)
    have hne : splitNN (lastPiece (splitNN (buf ++ c)) ++ (c' ++ cs.flatten)) ≠ [] :=
      splitNN_ne_nil _
    calc (splitNN (buf ++ c)).dropLast
          ++ (splitNN (lastPiece (splitNN (buf ++ c)) ++ c' ++ cs.flatten)).dropLast
        = ((splitNN (buf ++ c)).dropLast
            ++ splitNN (lastPiece (splitNN (buf ++ c)) ++ (c' ++ cs.flatten))).dropLast := by
          rw [List.dropLast_append_of_ne_nil _ hne, List.append_assoc]
      _ = (splitNN (buf ++ c ++ (c' :: cs).flatten)).dropLast := by
          rw [← this]
          simp [List.append_assoc]

/-! ## Frame matching: the anchored regex and trim -/

/-- Whitespace as stripped by JavaScript `String.prototype.trim`
(restricted to the ASCII whitespace characters that can occur in the
wire format). -/
def isJsWs (c : Char) : Bool :=
  c = ' ' || c = '\n' || c = '\t' || c = '\r' || c = '\x0b' || c = '\x0c'

/-- Model of `s.trim()`. -/
def jsTrim (s : List Char) : List Char :=
  ((s.dropWhile isJsWs).reverse.dropWhile isJsWs).reverse

/-- The seven characters of the literal prefix in the regex
`/^event: (.*)\ndata: (.*)/s`. -/
def eventPrefix : List Char := ['e', 'v', 'e', 'n', 't', ':', ' ']

/-- The seven characters separating the two capture groups of the regex:
a newline followed by the `data: ` label. -/
def dataLabel : List Char := ['\n', 'd', 'a', 't', 'a', ':', ' ']

/-- Split at the LAST occurrence of `dataLabel`: the first capture group
`(.*)` is greedy and `.` matches newlines under the `/s` flag, so
backtracking places the `\ndata: ` literal at its rightmost occurrence.
Returns the text before and after that occurrence, or `none` when the
label does not occur. -/
def splitLastData : List Char → Option (List Char × List Char)
  | [] => none
  | a :: rest =>
    match splitLastData rest with
    | some (pre, post) => some (a :: pre, post)
    | none =>
      if (a :: rest).take 7 = dataLabel then some ([], (a :: rest).drop 7)
      else none

/-- Model of `line.match(/^event: (.*)\ndata: (.*)/s)` followed by
`eventMatch[1].trim()` and `eventMatch[2].trim()`: `none` when the
candidate frame does not match, otherwise the trimmed
`(eventName, rawPayload)` pair. -/
def parseFrame (line : List Char) : Option (List Char × List Char) :=
  if line.take 7 = eventPrefix then
    match splitLastData (line.drop 7) with
    | some (pre, post) => some (jsTrim pre, jsTrim post)
    | none => none
  else none

/-- The dispatch guard of the `for` loop: candidate frames that match
the regex are kept (and dispatched, in order); the rest are silently
skipped. -/
def decodeCandidates (lines : List (List Char)) : List (List Char × List Char) :=
  lines.filterMap parseFrame

/-- End-to-end decoding of a chunked stream: run the buffer loop from an
empty buffer over all chunks and parse every emitted candidate frame. -/
def decodeStream (chunks : List (List Char)) : List (List Char × List Char) :=
  decodeCandidates (runDecoder [] chunks)

/-- C1: For every stream and every way of splitting it into successive
chunks, feeding the chunks one at a time through the decoder loop
(append chunk to buffer, split on the blank-line delimiter, emit every
piece except the last, keep the last piece as the new buffer) emits the
same ordered list of (eventName, rawPayload) frames as delivering the
whole stream as one single chunk. -/
theorem decodeStream_chunking_invariant (chunks : List (List Char)) :
    decodeStream chunks = decodeStream [chunks.flatten] := by
  rcases chunks with _ | ⟨c, cs⟩
  · simp [decodeStream, runDecoder, decodeCandidates, feedChunk, splitNN]
  · unfold decodeStream
    rw [runDecoder_eq_dropLast, runDecoder_eq_dropLast]
    simp

/-! ## EventDispatcher: JSON.parse on string-literal payloads -/

/-- Hexadecimal digit value, for `\uXXXX` escapes. -/
def hexVal (c : Char) : Option Nat :=
  if '0' ≤ c ∧ c ≤ '9' then some (c.toNat - 48)
  else if 'a' ≤ c ∧ c ≤ 'f' then some (c.toNat - 87)
  else if 'A' ≤ c ∧ c ≤ 'F' then some (c.toNat - 55)
  else none

/-- Body of a JSON string literal after the opening quote: succeeds with
the unescaped text exactly when the remaining input is a well-formed
literal body whose closing quote ends the input. -/
def parseStrBody : List Char → Option (List Char)
  | [] => none
  | '"' :: rest => if rest.isEmpty then some [] else none
  | '\\' :: '"' :: rs => (parseStrBody rs).map (fun t => '"' :: t)
  | '\\' :: '\\' :: rs => (parseStrBody rs).map (fun t => '\\' :: t)
  | '\\' :: '/' :: rs => (parseStrBody rs).map (fun t => '/' :: t)
  | '\\' :: 'b' :: rs => (parseStrBody rs).map (fun t => Char.ofNat 8 :: t)
  | '\\' :: 'f' :: rs => (parseStrBody rs).map (fun t => Char.ofNat 12 :: t)
  | '\\' :: 'n' :: rs => (parseStrBody rs).map (fun t => '\n' :: t)
  | '\\' :: 'r' :: rs => (parseStrBody rs).map (fun t => '\r' :: t)
  | '\\' :: 't' :: rs => (parseStrBody rs).map (fun t => '\t' :: t)
  | '\\' :: 'u' :: h1 :: h2 :: h3 :: h4 :: rs =>
    match hexVal h1, hexVal h2, hexVal h3, hexVal h4 with
    | some v1, some v2, some v3, some v4 =>
      (parseStrBody rs).map (fun t => Char.ofNat (((v1 * 16 + v2) * 16 + v3) * 16 + v4) :: t)
    | _, _, _, _ => none
  | '\\' :: _ :: _ => none
  | '\\' :: [] => none
  | c :: rest => if c.toNat < 32 then none else (parseStrBody rest).map (fun t => c :: t)

/-- Model of `JSON.parse(dataRaw)` restricted to the payload shapes of
the wire contract for `message` frames: a JSON string literal decodes to
the contained text, anything else is a decode failure. -/
def jsonParseStr : List Char → Option (List Char)
  | '"' :: rest => parseStrBody rest
  | _ => none

/-- The `message` branch of the dispatcher in `sendMessageStream`: try
`JSON.parse(dataRaw)` and pass the decoded token to the content
callback; on decode failure fall back to the raw payload verbatim. The
returned value is the content delta handed to `onMessageCallback`. -/
def messageDelta (dataRaw : List Char) : List Char :=
  match jsonParseStr dataRaw with
  | some tok => tok
  | none => dataRaw

/-- C3: For every `message` frame the dispatcher first attempts to
JSON-decode the payload and invokes the content callback with the
decoded value; if JSON decoding fails it invokes the content callback
with the raw payload string verbatim; in particular the payloads
`"Hello"` (a JSON string literal) and `Hello` (invalid JSON) both yield
the content delta `Hello`, appended identically to any running
content. -/
theorem message_branch_json_or_raw (dataRaw : List Char) :
    (∀ tok, jsonParseStr dataRaw = some tok → messageDelta dataRaw = tok) ∧
    (jsonParseStr dataRaw = none → messageDelta dataRaw = dataRaw) ∧
    messageDelta ['"', 'H', 'e', 'l', 'l', 'o', '"'] = ['H', 'e', 'l', 'l', 'o'] ∧
    messageDelta ['H', 'e', 'l', 'l', 'o'] = ['H', 'e', 'l', 'l', 'o'] ∧
    (∀ run : List Char,
      run ++ messageDelta ['"', 'H', 'e', 'l', 'l', 'o', '"'] =
        run ++ messageDelta ['H', 'e', 'l', 'l', 'o']) := by
  refine ⟨?_, ?_, by decide, by decide, fun run => by rw [show messageDelta ['"', 'H', 'e', 'l', 'l', 'o', '"'] = messageDelta ['H', 'e', 'l', 'l', 'o'] from by decide]⟩
  · intro tok h
    simp [messageDelta, h]
  · intro h
    simp [messageDelta, h]

theorem message_branch_json_or_raw_witness :
    messageDelta ['"', 'H', 'i', '"'] = ['H', 'i'] :=
  (message_branch_json_or_raw ['"', 'H', 'i', '"']).1 ['H', 'i'] (by decide)

/-- A complete well-formed frame carrying a `message` event. -/
def sampleFrameA : List Char :=
  eventPrefix ++ ['m', 'e', 's', 's', 'a', 'g', 'e'] ++ dataLabel ++ ['"', 'X', '"']

/-- A complete well-formed frame carrying a `sources` event. -/
def sampleFrameB : List Char :=
  eventPrefix ++ ['s', 'o', 'u', 'r', 'c', 'e', 's'] ++ dataLabel ++ ['[', ']']

/-- A fragment that does not match the `event:`/`data:` pattern. -/
def sampleJunk : List Char := ['g', 'a', 'r', 'b', 'a', 'g', 'e']

/-- C4: Decoding a sequence of candidate frames with a malformed
fragment (one not matching the two-line `event:`/`data:` pattern)
inserted anywhere emits exactly the frames of the sequence without it —
every valid frame, in its original order, with the malformed fragment
silently dropped and the frames after it still emitted (the stream is
not aborted). -/
theorem decode_drops_malformed (pre post : List (List Char)) (mal : List Char)
    (hmal : parseFrame mal = none) :
    decodeCandidates (pre ++ mal :: post) = decodeCandidates (pre ++ post) ∧
    decodeCandidates (pre ++ mal :: post) =
      decodeCandidates pre ++ decodeCandidates post := by
  constructor <;>
    simp [decodeCandidates, List.filterMap_append, List.filterMap_cons, hmal]

theorem decode_drops_malformed_witness :
    decodeCandidates ([sampleFrameA] ++ sampleJunk :: [sampleFrameB]) =
      decodeCandidates ([sampleFrameA] ++ [sampleFrameB]) :=
  (decode_drops_malformed [sampleFrameA] [sampleFrameB] sampleJunk (by decide)).1

/-! ## Data model: ConversationRecord and Citation (lib/types.ts) -/

inductive Role
  | user
  | assistant
deriving DecidableEq, Repr

/-- The `Source` interface of `lib/types.ts` (a Citation); the
floating-point relevance score is carried as a rational, it is never
computed with. -/
structure Source where
  filename : List Char
  page : Option Nat := none
  content : List Char := []
  score : Option ℚ := none
  knowledge_id : Option Nat := none
deriving DecidableEq, Repr

/-- The `Message` interface of `lib/types.ts`. -/
structure Message where
  id : Option Nat := none
  role : Role
  content : List Char := []
  sources : Option (List Source) := none
  created_at : Option (List Char) := none
  isStreaming : Option Bool := none
  token_usage : Option Nat := none
deriving DecidableEq, Repr

/-- JavaScript `v || old` on an optional number: `undefined` and `0` are
falsy, any other number is kept. -/
def jsOrSome (v old : Option Nat) : Option Nat :=
  match v with
  | some n => if n = 0 then old else some n
  | none => old

/-- JavaScript `v || d` where the fallback `d` is a number. -/
def jsOrD (v : Option Nat) (d : Nat) : Nat :=
  match v with
  | some n => if n = 0 then d else n
  | none => d

/-- `updateLastMessage` of the chat session page: copy the list, and
when the last entry exists and has role `assistant`, replace it by a
copy with the given content and citation list and with
`token_usage: tokenUsage || previous` (falsy-coalescing); otherwise
return the list unchanged. -/
def updateLastMessage (content : List Char) (sources : Option (List Source))
    (tokenUsage : Option Nat) (prev : List Message) : List Message :=
  match prev.getLast? with
  | some lastMsg =>
    if lastMsg.role = Role.assistant then
      prev.dropLast ++
        [{ lastMsg with
            content := content
            sources := sources
            token_usage := jsOrSome tokenUsage lastMsg.token_usage }]
    else prev
  | none => prev

/-! ## StreamingExchange: one turn of handleSendMessage (part_008 page) -/

/-- The local state of one `handleSendMessage` turn: the message list
and the page-level `streaming` flag (React state), plus the three
accumulator variables captured by the callbacks. -/
structure TurnState where
  messages : List Message
  streaming : Bool
  assistantMsgContent : List Char
  assistantSources : List Source
  tokenUsage : Nat
deriving DecidableEq, Repr

/-- Turn start: append the user record and the placeholder assistant
record (empty content, `isStreaming: true`), set `streaming`, reset the
accumulators. -/
def beginTurn (input : List Char) (messages : List Message) : TurnState :=
  { messages :=
      (messages ++ [{ role := Role.user, content := input }]) ++
        [{ role := Role.assistant, content := [], isStreaming := some true }]
    streaming := true
    assistantMsgContent := []
    assistantSources := []
    tokenUsage := 0 }

/-- The content callback: extend the accumulated content and push it to
the last message. -/
def contentStep (chunk : List Char) (st : TurnState) : TurnState :=
  let newContent := st.assistantMsgContent ++ chunk
  { st with
      assistantMsgContent := newContent
      messages :=
        updateLastMessage newContent (some st.assistantSources)
          (some st.tokenUsage) st.messages }

/-- The sources callback: replace the accumulated citation list and
push the current state to the last message. -/
def sourcesStep (sources : List Source) (st : TurnState) : TurnState :=
  { st with
      assistantSources := sources
      messages :=
        updateLastMessage st.assistantMsgContent (some sources)
          (some st.tokenUsage) st.messages }

/-- The parsed payload of a `usage` frame. -/
structure Usage where
  input_tokens : Nat
  output_tokens : Nat
  total_tokens : Option Nat := none
deriving DecidableEq, Repr

/-- The usage callback:
`tokenUsage = usage.total_tokens || (usage.input_tokens + usage.output_tokens)`,
then push the current state to the last message. -/
def usageStep (usage : Usage) (st : TurnState) : TurnState :=
  let tu := jsOrD usage.total_tokens (usage.input_tokens + usage.output_tokens)
  { st with
      tokenUsage := tu
      messages :=
        updateLastMessage st.assistantMsgContent (some st.assistantSources)
          (some tu) st.messages }

/-- The error callback of `handleSendMessage`: clear the page-level
`streaming` flag; when the last message is an assistant record with
falsy (empty) content, drop it from the list, otherwise leave the list
as is. -/
def errorStep (st : TurnState) : TurnState :=
  { st with
      streaming := false
      messages :=
        match st.messages.getLast? with
        | some lastMsg =>
          if lastMsg.role = Role.assistant ∧ lastMsg.content = [] then
            st.messages.dropLast
          else st.messages
        | none => st.messages }

/-- The finish callback: clear the page-level `streaming` flag and, when
the last message has role `assistant`, clear its `isStreaming` flag. -/
def finishStep (st : TurnState) : TurnState :=
  { st with
      streaming := false
      messages :=
        match st.messages.getLast? with
        | some lastMsg =>
          if lastMsg.role = Role.assistant then
            st.messages.dropLast ++ [{ lastMsg with isStreaming := some false }]
          else st.messages
        | none => st.messages }

/-- `handleStop` of the chat session page: it only clears the
page-level `streaming` flag (and shows a toast); nothing else. -/
def handleStop (st : TurnState) : TurnState :=
  { st with streaming := false }

/-- One dispatched frame effect during a streaming turn. -/
inductive FrameEvent
  | content (chunk : List Char)
  | citations (sources : List Source)
  | usage (u : Usage)
deriving DecidableEq, Repr

def applyEvent (st : TurnState) (e : FrameEvent) : TurnState :=
  match e with
  | FrameEvent.content chunk => contentStep chunk st
  | FrameEvent.citations s => sourcesStep s st
  | FrameEvent.usage u => usageStep u st

def runEvents (st : TurnState) (es : List FrameEvent) : TurnState :=
  es.foldl applyEvent st

/-- The content deltas among a list of frame events. -/
def contentDeltas (es : List FrameEvent) : List (List Char) :=
  es.filterMap fun e =>
    match e with
    | FrameEvent.content c => some c
    | _ => none

/-! ## C9: per-frame updates touch only the trailing assistant record -/

theorem updateLastMessage_dropLast (content : List Char)
    (sources : Option (List Source)) (tokenUsage : Option Nat)
    (prev : List Message) :
    (updateLastMessage content sources tokenUsage prev).dropLast = prev.dropLast ∧
    (updateLastMessage content sources tokenUsage prev).length = prev.length := by
  rcases List.eq_nil_or_concat prev with rfl | ⟨ys, y, rfl⟩
  · simp [updateLastMessage]
  · simp only [List.concat_eq_append]
    unfold updateLastMessage
    rw [List.getLast?_concat]
    by_cases hy : y.role = Role.assistant <;> simp [hy]

/-- C9: every per-frame update during a streaming turn (content delta,
citations, usage) modifies at most the final element of the message
list, and only when that final element has role `assistant`; every
other entry of the list — in particular the user record of the current
turn — is left unchanged. -/
theorem frame_updates_touch_only_last (e : FrameEvent) (st : TurnState) :
    ((applyEvent st e).messages.dropLast = st.messages.dropLast) ∧
    ((applyEvent st e).messages.length = st.messages.length) ∧
    (∀ m, st.messages.getLast? = some m → m.role ≠ Role.assistant →
      (applyEvent st e).messages = st.messages) ∧
    (st.messages = [] → (applyEvent st e).messages = st.messages) := by
  have core : ∀ (content : List Char) (sources : Option (List Source))
      (tokenUsage : Option Nat),
      (∀ m, st.messages.getLast? = some m → m.role ≠ Role.assistant →
        updateLastMessage content sources tokenUsage st.messages = st.messages) ∧
      (st.messages = [] →
        updateLastMessage content sources tokenUsage st.messages = st.messages) := by
    intro content sources tokenUsage
    constructor
    · intro m hm hrole
      simp [updateLastMessage, hm, hrole]
    · intro h
      simp [updateLastMessage, h]
  rcases e with chunk | s | u <;>
    exact ⟨(updateLastMessage_dropLast ..).1, (updateLastMessage_dropLast ..).2,
      (core ..).1, (core ..).2⟩

theorem frame_updates_touch_only_last_witness :
    (applyEvent
        { messages := [{ role := Role.user, content := ['q'] }]
          streaming := true
          assistantMsgContent := []
          assistantSources := []
          tokenUsage := 0 }
        (FrameEvent.content ['a'])).messages =
      [{ role := Role.user, content := ['q'] }] :=
  (frame_updates_touch_only_last (FrameEvent.content ['a']) _).2.2.1
    { role := Role.user, content := ['q'] } (by decide) (by decide)

/-! ## C2: rollback of the optimistic placeholder on failure -/

/-- Invariant of an active turn: the message list is the base list (the
history plus the user record) followed by exactly one trailing assistant
record whose `isStreaming` flag is set and whose content mirrors the
accumulated content variable. -/
def TurnInv (base : List Message) (st : TurnState) : Prop :=
  ∃ lastMsg, st.messages = base ++ [lastMsg] ∧
    lastMsg.role = Role.assistant ∧
    lastMsg.isStreaming = some true ∧
    lastMsg.content = st.assistantMsgContent

theorem applyEvent_turnInv (base : List Message) (st : TurnState) (e : FrameEvent)
    (h : TurnInv base st) : TurnInv base (applyEvent st e) := by
  obtain ⟨lastMsg, hmsg, hrole, hstream, hcontent⟩ := h
  have hlast : st.messages.getLast? = some lastMsg := by
    rw [hmsg]; simp
  have hupd : ∀ (content : List Char) (sources : Option (List Source)) (tu : Option Nat),
      updateLastMessage content sources tu st.messages =
        base ++
          [{ lastMsg with
              content := content
              sources := sources
              token_usage := jsOrSome tu lastMsg.token_usage }] := by
    intro content sources tu
    unfold updateLastMessage
    simp [hmsg, hrole]
  rcases e with chunk | s | u
  · exact ⟨_, hupd .., hrole, hstream, rfl⟩
  · exact ⟨_, hupd .., hrole, hstream, rfl⟩
  · exact ⟨_, hupd .., hrole, hstream, rfl⟩

theorem runEvents_turnInv (base : List Message) (st : TurnState)
    (es : List FrameEvent) (h : TurnInv base st) :
    TurnInv base (runEvents st es) := by
  induction es generalizing st with
  | nil => exact h
  | cons e es ih => exact ih _ (applyEvent_turnInv base st e h)

theorem runEvents_content (st : TurnState) (es : List FrameEvent) :
    (runEvents st es).assistantMsgContent =
      st.assistantMsgContent ++ (contentDeltas es).flatten := by
  induction es generalizing st with
  | nil => simp [runEvents, contentDeltas]
  | cons e es ih =>
    rcases e with chunk | s | u <;>
      simp [runEvents, contentDeltas, List.filterMap_cons, applyEvent, contentStep,
        sourcesStep, usageStep] at ih ⊢ <;>
      simp [ih]

/-- C2 (amended): for every streaming turn that ends in failure, if the
accumulated content is empty (no content callback fired, or only
empty-string deltas), the placeholder assistant record is removed from
the message list entirely; if the accumulated content is non-empty, the
record stays in the list with its partial content — but its in-progress
flag is NOT cleared (it remains `true`; only the page-level streaming
indicator is cleared). -/
theorem failed_turn_rollback (input : List Char) (messages : List Message)
    (es : List FrameEvent) :
    (runEvents (beginTurn input messages) es).assistantMsgContent =
      (contentDeltas es).flatten ∧
    (errorStep (runEvents (beginTurn input messages) es)).streaming = false ∧
    ((contentDeltas es).flatten = [] →
      (errorStep (runEvents (beginTurn input messages) es)).messages =
        messages ++ [{ role := Role.user, content := input }]) ∧
    ((contentDeltas es).flatten ≠ [] →
      ∃ lastMsg,
        (errorStep (runEvents (beginTurn input messages) es)).messages =
          messages ++ [{ role := Role.user, content := input }, lastMsg] ∧
        lastMsg.role = Role.assistant ∧
        lastMsg.content = (contentDeltas es).flatten ∧
        lastMsg.isStreaming = some true) := by
  have hinv0 : TurnInv (messages ++ [{ role := Role.user, content := input }])
      (beginTurn input messages) :=
    ⟨_, rfl, rfl, rfl, rfl⟩
  have hinv := runEvents_turnInv _ _ es hinv0
  obtain ⟨lastMsg, hmsg, hrole, hstream, hcontent⟩ := hinv
  have hcont : (runEvents (beginTurn input messages) es).assistantMsgContent =
      (contentDeltas es).flatten := by
    rw [runEvents_content]; rfl
  have hlast : (runEvents (beginTurn input messages) es).messages.getLast? =
      some lastMsg := by
    rw [hmsg]; simp
  refine ⟨hcont, rfl, ?_, ?_⟩
  · intro hempty
    have hce : lastMsg.content = [] := by rw [hcontent, hcont, hempty]
    simp only [errorStep, hlast, hrole, hce, and_self, if_pos, true_and]
    rw [hmsg, List.dropLast_concat]
  · intro hne
    have hce : lastMsg.content ≠ [] := by rw [hcontent, hcont]; exact hne
    refine ⟨lastMsg, ?_, hrole, by rw [hcontent, hcont], hstream⟩
    have : ¬(lastMsg.role = Role.assistant ∧ lastMsg.content = []) := by
      intro hc; exact hce hc.2
    simp only [errorStep, hlast, this, if_neg, not_false_iff]
    rw [hmsg, List.append_assoc]
    rfl

theorem failed_turn_rollback_witness :
    ∃ lastMsg,
      (errorStep (runEvents (beginTurn ['q'] []) [FrameEvent.content ['H', 'i']])).messages =
        [] ++ [{ role := Role.user, content := ['q'] }, lastMsg] ∧
      lastMsg.role = Role.assistant ∧
      lastMsg.content = (contentDeltas [FrameEvent.content ['H', 'i']]).flatten ∧
      lastMsg.isStreaming = some true :=
  (failed_turn_rollback ['q'] [] [FrameEvent.content ['H', 'i']]).2.2.2 (by decide)

/-- C2 counterexample to the claim as stated: a turn that fails after a
content callback fired keeps the partial content, but the in-progress
flag of the record is still `true` afterwards, not cleared. -/
theorem failed_turn_flag_not_cleared :
    ((errorStep (runEvents (beginTurn ['q'] [])
        [FrameEvent.content ['H', 'i']])).messages.getLast?.map Message.isStreaming) =
      some (some true) ∧
    ((errorStep (runEvents (beginTurn ['q'] [])
        [FrameEvent.content ['H', 'i']])).messages.getLast?.map Message.content) =
      some ['H', 'i'] ∧
    ((errorStep (runEvents (beginTurn ['q'] [])
        [FrameEvent.content ['H', 'i']])).messages.getLast?.map Message.isStreaming) ≠
      some (some false) := by
  decide

/-! ## C5: derived token total on the usage frame -/

/-- C5 (amended): for a `usage` payload without `total_tokens` and with
a positive component sum, the token usage recorded on the trailing
assistant record equals `input_tokens + output_tokens` (a zero sum is
falsy under `tokenUsage || previous` and leaves the previously recorded
value in place instead). -/
theorem usage_total_derived (u : Usage) (st : TurnState) (m : Message)
    (h1 : u.total_tokens = none) (h2 : 0 < u.input_tokens + u.output_tokens)
    (h3 : st.messages.getLast? = some m) (h4 : m.role = Role.assistant) :
    (usageStep u st).tokenUsage = u.input_tokens + u.output_tokens ∧
    (usageStep u st).messages.getLast?.map Message.token_usage =
      some (some (u.input_tokens + u.output_tokens)) := by
  have hd : jsOrD u.total_tokens (u.input_tokens + u.output_tokens) =
      u.input_tokens + u.output_tokens := by
    rw [h1]; rfl
  have hnz : u.input_tokens + u.output_tokens ≠ 0 := Nat.pos_iff_ne_zero.mp h2
  refine ⟨by simp [usageStep, hd], ?_⟩
  have hrec : jsOrSome (some (u.input_tokens + u.output_tokens)) m.token_usage =
      some (u.input_tokens + u.output_tokens) := by
    simp [jsOrSome, hnz]
  rcases List.eq_nil_or_concat st.messages with hnil | ⟨ys, y, hcat⟩
  · rw [hnil] at h3; simp at h3
  · have hy : y = m := by
      rw [hcat] at h3; simp at h3; exact h3
    subst hy
    simp [usageStep, updateLastMessage, h3, h4, hd, hrec, hcat]

theorem usage_total_derived_witness :
    (usageStep { input_tokens := 10, output_tokens := 5 }
        (beginTurn ['q'] [])).messages.getLast?.map Message.token_usage =
      some (some (10 + 5)) :=
  (usage_total_derived { input_tokens := 10, output_tokens := 5 } (beginTurn ['q'] [])
      { role := Role.assistant, content := [], isStreaming := some true }
      rfl (by decide) (by decide) (by decide)).2

/-- C5 counterexample to the claim as stated: a `usage` payload with
`input_tokens = 0`, `output_tokens = 0` and no `total_tokens` leaves the
record without a recorded total (the zero sum is falsy), instead of
recording `0`. -/
theorem usage_zero_sum_not_recorded :
    (usageStep { input_tokens := 0, output_tokens := 0 }
        (beginTurn ['q'] [])).messages.getLast?.map Message.token_usage =
      some none ∧
    (usageStep { input_tokens := 0, output_tokens := 0 }
        (beginTurn ['q'] [])).messages.getLast?.map Message.token_usage ≠
      some (some 0) := by
  decide

/-! ## C8: the stop control -/

/-- C8 (amended): `handleStop` clears only the page-level streaming
indicator: the message list is untouched by the stop itself, and a
content / citations / usage callback that fires after the stop still
updates the message list exactly as it would have without the stop —
the stop neither suppresses local state updates from the turn nor
aborts the in-flight network read (no abort signal exists in the
model, as in the source). -/
theorem stop_only_clears_page_flag (st : TurnState) (e : FrameEvent) :
    (handleStop st).messages = st.messages ∧
    (handleStop st).streaming = false ∧
    (applyEvent (handleStop st) e).messages = (applyEvent st e).messages ∧
    applyEvent (handleStop st) e = handleStop (applyEvent st e) := by
  rcases e with chunk | s | u <;> exact ⟨rfl, rfl, rfl, rfl⟩

/-- C8 counterexample to the claim as stated: after `handleStop`, a
content callback from the same turn still mutates the message list. -/
theorem stop_does_not_suppress_updates :
    (applyEvent
        (handleStop (runEvents (beginTurn ['q'] []) [FrameEvent.content ['H']]))
        (FrameEvent.content ['i'])).messages ≠
      (handleStop (runEvents (beginTurn ['q'] [])
        [FrameEvent.content ['H']])).messages := by
  decide

/-! ## SessionListSynchronizer: lib/store.ts and the sidebar -/

/-- The `ChatSession` interface of `lib/types.ts`. -/
structure ChatSession where
  id : List Char
  title : List Char
  icon : List Char
  top_k : Nat
  knowledge_id : Nat
  knowledge_ids : List Nat
  user_id : Nat
  created_at : List Char
  updated_at : List Char
deriving DecidableEq, Repr

/-- `addSession` of the chat store: prepend the confirmed session. -/
def addSession (session : ChatSession) (sessions : List ChatSession) :
    List ChatSession :=
  session :: sessions

/-- `handleCreateSession` of the sidebar, as a function of how the
network creation call resolves: the store is only touched in the
success branch, after `createSession` resolved; the catch branch only
shows a toast. -/
def handleCreateSession (result : Except (List Char) ChatSession)
    (sessions : List ChatSession) : List ChatSession :=
  match result with
  | Except.ok session => addSession session sessions
  | Except.error _ => sessions

/-- C6: a successfully confirmed new session is placed at index 0 of
the local session list with the previous entries intact behind it, and
a failed creation leaves the list unchanged (the list is never mutated
before the call resolves successfully: the only mutation in the model
is in the success branch). -/
theorem create_prepends_confirmed_session (s : ChatSession) (err : List Char)
    (sessions : List ChatSession) :
    handleCreateSession (Except.ok s) sessions = s :: sessions ∧
    (handleCreateSession (Except.ok s) sessions)[0]? = some s ∧
    (handleCreateSession (Except.ok s) sessions).tail = sessions ∧
    handleCreateSession (Except.error err) sessions = sessions :=
  ⟨rfl, by simp [handleCreateSession, addSession], rfl, rfl⟩

/-- The chat store state touched by `fetchSessions`. -/
structure ChatStoreState where
  sessions : List ChatSession
  isLoading : Bool
deriving DecidableEq, Repr

/-- `fetchSessions` of the chat store, as a function of how
`chatService.getSessions()` resolves. Returns the final store state and
whether the failure was logged: on success the list is replaced
wholesale; on failure only `console.error` runs; the `finally` block
clears `isLoading` on both paths. -/
def fetchSessions (st : ChatStoreState)
    (result : Except (List Char) (List ChatSession)) : ChatStoreState × Bool :=
  match result with
  | Except.ok data => ({ sessions := data, isLoading := false }, false)
  | Except.error _ => ({ st with isLoading := false }, true)

/-- C7: a failed session-list fetch leaves the previously held list
entirely intact, logs the failure, and clears the loading flag. -/
theorem fetch_failure_preserves_sessions (st : ChatStoreState) (err : List Char) :
    (fetchSessions st (Except.error err)).1.sessions = st.sessions ∧
    (fetchSessions st (Except.error err)).2 = true ∧
    (fetchSessions st (Except.error err)).1.isLoading = false :=
  ⟨rfl, rfl, rfl⟩

/-! ## C10: exception flow of sendMessageStream -/

/-- A JavaScript exception value, by its message. -/
abbrev JsError := List Char

/-- The five callbacks handed to `sendMessageStream`, each modelled by
whether (and with what) it throws on a given argument (`none` = returns
normally). -/
structure StreamCallbacks where
  onMessage : List Char → Option JsError
  onSources : List Char → Option JsError
  onUsage : List Char → Option JsError
  onError : JsError → Option JsError
  onFinish : Unit → Option JsError

/-- The observable behavior of the fetch exchange: response status,
body presence, the chunks the reader delivers, and an optional
exception thrown by the read after the last chunk (`none` = clean
end of stream). -/
structure NetBehavior where
  ok : Bool
  detail : JsError
  hasBody : Bool
  chunks : List (List Char)
  readErr : Option JsError

def eventNameMessage : List Char := ['m', 'e', 's', 's', 'a', 'g', 'e']
def eventNameSources : List Char := ['s', 'o', 'u', 'r', 'c', 'e', 's']
def eventNameUsage : List Char := ['u', 's', 'a', 'g', 'e']

/-- Exception flow of one loop iteration over a candidate frame: a
non-matching fragment is skipped; in the `message` branch the inner
try/catch retries the content callback with the raw payload when
`JSON.parse` fails or when the first callback call threw, so only the
fallback call can propagate; the `sources` and `usage` branches wrap
both the parse and their callback in a try/catch whose handler only
logs, so nothing propagates from them; unknown event names are
ignored. -/
def dispatchLine (cbs : StreamCallbacks) (line : List Char) : Option JsError :=
  match parseFrame line with
  | none => none
  | some (eventType, dataRaw) =>
    if eventType = eventNameMessage then
      match jsonParseStr dataRaw with
      | some tok =>
        match cbs.onMessage tok with
        | none => none
        | some _ => cbs.onMessage dataRaw
      | none => cbs.onMessage dataRaw
    else if eventType = eventNameSources then
      match cbs.onSources dataRaw with
      | _ => none
    else if eventType = eventNameUsage then
      match cbs.onUsage dataRaw with
      | _ => none
    else none

/-- Exception flow of the `for` loop over the candidate frames of one
chunk: the first propagating exception aborts the loop. -/
def processLines (cbs : StreamCallbacks) : List (List Char) → Option JsError
  | [] => none
  | l :: ls =>
    match dispatchLine cbs l with
    | some e => some e
    | none => processLines cbs ls

/-- Exception flow of the read loop: feed each chunk through the
decoder, dispatch the emitted candidate frames, and at end of input
either finish cleanly or rethrow the read error. -/
def readLoop (cbs : StreamCallbacks) (buf : List Char) :
    List (List Char) → Option JsError → Option JsError
  | [], readErr => readErr
  | c :: cs, readErr =>
    match processLines cbs (feedChunk buf c).1 with
    | some e => some e
    | none => readLoop cbs (feedChunk buf c).2 cs readErr

/-- The exception, if any, raised inside the `try` block of
`sendMessageStream`: non-success status (with its decoded detail),
missing body, read-loop propagation, or a throw from the finish
callback (which is called inside the `try`). -/
def tryBody (net : NetBehavior) (cbs : StreamCallbacks) : Option JsError :=
  if net.ok = false then some net.detail
  else if net.hasBody = false then "No response body".toList |> some
  else
    match readLoop cbs [] net.chunks net.readErr with
    | some e => some e
    | none => cbs.onFinish ()

/-- How the promise returned by `sendMessageStream` settles. -/
inductive Outcome
  | resolved
  | rejected (e : JsError)
deriving DecidableEq, Repr

/-- `sendMessageStream` as a whole: the single `catch` block delivers
any exception from the `try` block to `onErrorCallback`; an exception
thrown by `onErrorCallback` itself is not caught and rejects the
returned promise. -/
def sendMessageStream (net : NetBehavior) (cbs : StreamCallbacks) : Outcome :=
  match tryBody net cbs with
  | none => Outcome.resolved
  | some e =>
    match cbs.onError e with
    | none => Outcome.resolved
    | some e2 => Outcome.rejected e2

/-- C10 (amended): provided the supplied error callback itself never
throws, `sendMessageStream` never rejects: for every network behavior
and every behavior of the other callbacks, any exception raised during
the exchange (non-success response, missing body, body-read error, or
an exception escaping a callback) is caught and delivered to
`onErrorCallback`, and the returned promise resolves. -/
theorem stream_resolves_when_error_cb_benign (net : NetBehavior)
    (cbs : StreamCallbacks) (h : ∀ e, cbs.onError e = none) :
    sendMessageStream net cbs = Outcome.resolved := by
  unfold sendMessageStream
  cases htb : tryBody net cbs with
  | none => rfl
  | some e => simp [h e]

theorem stream_resolves_when_error_cb_benign_witness :
    sendMessageStream
      { ok := false, detail := ['x'], hasBody := true, chunks := [], readErr := none }
      { onMessage := fun _ => none, onSources := fun _ => none,
        onUsage := fun _ => none, onError := fun _ => none,
        onFinish := fun _ => none } = Outcome.resolved :=
  stream_resolves_when_error_cb_benign _ _ (fun _ => rfl)

/-- A callback set whose error callback throws. -/
def throwingCallbacks : StreamCallbacks :=
  { onMessage := fun _ => none
    onSources := fun _ => none
    onUsage := fun _ => none
    onError := fun e => some e
    onFinish := fun _ => none }

/-- C10 counterexample to the claim as stated: when the supplied error
callback itself throws (one of "every behavior of the supplied
callbacks"), the exception it raises is not caught and the returned
promise rejects. -/
theorem stream_rejects_when_error_cb_throws :
    sendMessageStream
        { ok := false, detail := ['x'], hasBody := true, chunks := [], readErr := none }
        throwingCallbacks = Outcome.rejected ['x'] ∧
    sendMessageStream
        { ok := false, detail := ['x'], hasBody := true, chunks := [], readErr := none }
        throwingCallbacks ≠ Outcome.resolved := by
  exact ⟨rfl, by decide⟩
